import Mathlib

/-!
Verification of the SquadMindAI debate orchestrator.

This file gives a shallow embedding of the squad debate system:
the five personality response generators (src/military_squad_advisor/personalities.py),
the debate orchestrator `SquadDebate` (src/squad_logic.py), and the conversation
memory (src/memory.py).  Python dictionaries keyed by role identifiers are
modelled as insertion-ordered association lists; Python string operations
(`in`, `.lower()`, `.split()`) are modelled by executable Lean functions on
`String`.  Operations that can raise in Python (dictionary indexing on a
missing key) are modelled with `Option`.
-/

set_option maxRecDepth 40000
set_option linter.unusedVariables false

/-! ## String primitives mirroring Python semantics -/

theorem data_append (a b : String) : (a ++ b).data = a.data ++ b.data := rfl

/-- ASCII lowercasing of one character, as Python `str.lower` acts on ASCII. -/
def lowerChar (c : Char) : Char :=
  if 'A' ≤ c ∧ c ≤ 'Z' then Char.ofNat (c.toNat + 32) else c

/-- Python `s.lower()` (restricted to ASCII, which covers every keyword list
in the source). -/
def pyLower (s : String) : String := ⟨s.data.map lowerChar⟩

/-- Boolean list-prefix test. -/
def isPrefixB : List Char → List Char → Bool
  | [], _ => true
  | _ :: _, [] => false
  | a :: as, b :: bs => a = b && isPrefixB as bs

/-- Boolean contiguous-sublist test. -/
def isSubB (n : List Char) : List Char → Bool
  | [] => n.isEmpty
  | b :: bs => isPrefixB n (b :: bs) || isSubB n bs

/-- Python `needle in hay` substring containment. -/
def pyIn (needle hay : String) : Bool := isSubB needle.data hay.data

/-- Python `s.split()`: split on whitespace runs, dropping empty tokens. -/
def pySplit (s : String) : List String :=
  (s.split Char.isWhitespace).filter (fun t => t ≠ "")

/-! ## Dictionaries as insertion-ordered association lists -/

/-- A Python `dict[str, str]`, insertion-ordered. -/
abbrev Dict := List (String × String)

/-- Lookup, `d.get(k)` / guarded `d[k]`. -/
def dictGet? : Dict → String → Option String
  | [], _ => none
  | p :: d, k => if p.1 = k then some p.2 else dictGet? d k

/-- Python `k in d`. -/
def containsKey (d : Dict) (k : String) : Bool :=
  d.any (fun p => p.1 = k)

/-- Python `d[k] = v`: update the first (and, keys being unique, only)
binding in place if the key exists, else append. -/
def dictSet : Dict → String → String → Dict
  | [], k, v => [(k, v)]
  | p :: d, k, v => if p.1 = k then (k, v) :: d else p :: dictSet d k v

/-- Lookup with default `""` (only used under a `containsKey` guard). -/
def dictGetD (d : Dict) (k : String) : String := (dictGet? d k).getD ""

/-! ## Conversation history entries (memory.py rows as read back) -/

/-- One entry of `get_conversation_history`. -/
structure HistEntry where
  timestamp : String
  speaker : String
  content : String
  kind : String
deriving Repr, DecidableEq

/-- Python truthiness of an optional dictionary (`if squad_responses:`):
`None` and the empty dict are falsy. -/
def pyTruthy (sq : Option Dict) : Bool :=
  match sq with
  | none => false
  | some d => !d.isEmpty

/-- `history[-5:]` — the context window every personality computes (and then
ignores when building its template text). -/
def analyze_context (h : List HistEntry) : List HistEntry :=
  if h.length > 5 then h.drop (h.length - 5) else h

/-! ## Leader (personalities.py, class Leader) -/

namespace Leader

/-- `Leader._generate_initial_assessment` (the `context` argument of the
source is ignored by the template and therefore omitted here). -/
def generate_initial_assessment (user_input : String) : String :=
  let response := "Alright, let\x27s assess the situation. " ++ user_input ++ "\n\n"
  let response := response ++ "My initial read: This requires a balanced approach with clear objectives. "
  let response := response ++ "Let me hear from the squad before making a final call."
  response

/-- `Leader._generate_decision` (ignored `context` argument omitted). -/
def generate_decision (user_input : String) (squad_responses : Dict) : String :=
  let response := "After considering all inputs from the squad, here\x27s my decision:\n\n"
  let response := if containsKey squad_responses "tactical" then
      response ++ "The tactical assessment has merit. " else response
  let response := if containsKey squad_responses "medic" then
      response ++ "I\x27ve weighed the ethical considerations. " else response
  let response := if containsKey squad_responses "scout" then
      response ++ "The intelligence gathered is valuable. " else response
  let response := if containsKey squad_responses "comms" then
      response ++ "The communication strategy is sound. " else response
  let response := response ++ "\nMy final decision is to proceed with a direct approach, focusing on the primary objective "
  let response := response ++ "while maintaining flexibility for unexpected developments. The squad will execute with "
  let response := response ++ "precision and purpose. Any objections need to be voiced now, but be prepared to move on my command."
  response

/-- `Leader.generate_response`. -/
def generate_response (user_input : String) (conversation_history : List HistEntry)
    (squad_responses : Option Dict) : String :=
  let context := analyze_context conversation_history
  if !pyTruthy squad_responses then
    generate_initial_assessment user_input
  else
    generate_decision user_input (squad_responses.getD [])

end Leader

/-! ## TacticalPlanner (personalities.py, class TacticalPlanner) -/

namespace TacticalPlanner

/-- `TacticalPlanner._generate_tactical_analysis`.  Note the branch on the
leader text is a case-sensitive Python `in` check. -/
def generate_tactical_analysis (user_input : String) (leader_response : String) : String :=
  let response := "From a tactical perspective, I see multiple angles to consider:\n\n"
  let response := response ++ "1. The approach suggested has a 65% probability of success based on similar scenarios.\n"
  let response := response ++ "2. We should consider alternative entry points to mitigate potential risks.\n"
  let response := response ++ "3. The timeline needs adjustment to account for unexpected variables.\n\n"
  if pyIn "direct approach" leader_response || pyIn "straightforward" leader_response then
    response ++ "Commander, with respect, a more indirect approach may yield better results with fewer risks. "
      ++ "We should consider a flanking maneuver rather than a head-on engagement."
  else
    response ++ "I concur with the core assessment, but recommend we establish secondary and tertiary "
      ++ "contingencies to increase our operational flexibility."

/-- `TacticalPlanner._generate_initial_tactical_thoughts` (ignored `context`
argument omitted). -/
def generate_initial_tactical_thoughts (user_input : String) : String :=
  "Initial tactical assessment: This situation requires careful analysis before proceeding. "
    ++ "I recommend we map out all variables and potential outcomes before committing to any course of action."

/-- `TacticalPlanner.generate_response`. -/
def generate_response (user_input : String) (conversation_history : List HistEntry)
    (squad_responses : Option Dict) : String :=
  let context := analyze_context conversation_history
  if pyTruthy squad_responses && containsKey (squad_responses.getD []) "leader" then
    generate_tactical_analysis user_input (dictGetD (squad_responses.getD []) "leader")
  else
    generate_initial_tactical_thoughts user_input

end TacticalPlanner

/-! ## Medic (personalities.py, class Medic) -/

namespace Medic

/-- `Medic._generate_ethical_assessment`.  The first guard is transcribed
exactly as written in the source: it tests membership of the literal string
key "squad_responses" in the dictionary, not of the key "tactical". -/
def generate_ethical_assessment (user_input : String) (squad_responses : Dict) : String :=
  let response := "Looking at this from a humanitarian and ethical standpoint:\n\n"
  let response := response ++ "We need to consider the human elements at play. "
  let response :=
    if containsKey squad_responses "squad_responses" && containsKey squad_responses "tactical" then
      let tactical_response := dictGetD squad_responses "tactical"
      if ["attack", "aggressive", "force", "risk"].any
          (fun word => pyIn word (pyLower tactical_response)) then
        response ++ "I have concerns about the aggressive tactical approach. "
          ++ "We should minimize potential harm and consider more measured alternatives. "
          ++ "Remember, our actions have consequences beyond the immediate mission."
      else
        response ++ "The tactical plan seems sound from an ethical perspective, "
          ++ "though I\x27d suggest we build in additional safeguards for all involved parties."
    else response
  if containsKey squad_responses "leader" then
    if pyIn "direct approach" (dictGetD squad_responses "leader") then
      response ++ "\n\nCommander, while I respect your authority, I must emphasize that "
        ++ "we consider the wellbeing of all stakeholders in this scenario. "
        ++ "Some situations call for patience rather than immediate action."
    else
      response ++ "\n\nI support the general direction, Commander, and appreciate "
        ++ "the balanced approach you\x27re taking with this situation."
  else response

/-- `Medic._generate_initial_ethical_thoughts` (ignored `context` argument
omitted). -/
def generate_initial_ethical_thoughts (user_input : String) : String :=
  "From an ethical standpoint, we should first consider the impacts on all involved. "
    ++ "Any course of action we take should minimize harm and uphold our core principles."

/-- `Medic.generate_response`. -/
def generate_response (user_input : String) (conversation_history : List HistEntry)
    (squad_responses : Option Dict) : String :=
  let context := analyze_context conversation_history
  if pyTruthy squad_responses then
    generate_ethical_assessment user_input (squad_responses.getD [])
  else
    generate_initial_ethical_thoughts user_input

end Medic

/-! ## Scout (personalities.py, class Scout) -/

namespace Scout

/-- `Scout._generate_observational_input`. -/
def generate_observational_input (user_input : String) (squad_responses : Dict) : String :=
  let response := "Based on my observations:\n\n"
  let response := response ++ "I\x27m seeing some details that might be overlooked. "
  if squad_responses.length ≥ 2 then
    response ++ "With all due respect to the command chain, the situation on the ground "
      ++ "doesn\x27t always match the tactical models. From what I can see, "
      ++ "we should account for these practical considerations:\n\n"
      ++ "1. The information presented has some gaps that could affect execution.\n"
      ++ "2. Based on similar situations we\x27ve encountered, expect delays in the timeline.\n"
      ++ "3. The conditions described will likely change rapidly once we engage.\n\n"
      ++ "Just my two cents from the field, Commander."
  else
    response ++ "The situation appears straightforward from a ground perspective. "
      ++ "I\x27ve observed similar patterns before, and they typically follow predictable paths. "
      ++ "We should be prepared for standard complications but nothing extraordinary."

/-- `Scout._generate_initial_observations` (ignored `context` argument
omitted). -/
def generate_initial_observations (user_input : String) : String :=
  "Reporting what I see: This situation has several notable aspects that might influence our approach. "
    ++ "I\x27ll continue monitoring and provide updates as the picture develops."

/-- `Scout.generate_response`. -/
def generate_response (user_input : String) (conversation_history : List HistEntry)
    (squad_responses : Option Dict) : String :=
  let context := analyze_context conversation_history
  if pyTruthy squad_responses then
    generate_observational_input user_input (squad_responses.getD [])
  else
    generate_initial_observations user_input

end Scout

/-! ## SquadDebate (squad_logic.py) -/

/-- The orchestrator state: the mutable `self.standard_speaking_order`.
The personality objects and the memory handle are immutable identities and
are represented by the fixed generator functions below. -/
structure SquadState where
  standard_speaking_order : List String
deriving Repr, DecidableEq

/-- The state as built by `SquadDebate.__init__`. -/
def initialState : SquadState := ⟨["leader", "tactical", "medic", "scout"]⟩

/-- The four role identifiers of the orchestrator loop. -/
def fourRoles : List String := ["leader", "tactical", "medic", "scout"]

/-- `self.hierarchy[role]`: `none` models the `KeyError` on an unknown role. -/
def hierarchy (role : String) :
    Option (String → List HistEntry → Option Dict → String) :=
  if role = "leader" then some Leader.generate_response
  else if role = "tactical" then some TacticalPlanner.generate_response
  else if role = "medic" then some Medic.generate_response
  else if role = "scout" then some Scout.generate_response
  else none

/-- `SquadDebate._should_challenge_leader`. -/
def should_challenge_leader (user_input : String) : Bool :=
  ["risk", "danger", "uncertain", "casualties", "loss", "failure"].any
    (fun topic => pyIn topic (pyLower user_input))

/-- `SquadDebate._has_ethical_concerns`. -/
def has_ethical_concerns (response : String) : Bool :=
  ["ethical", "moral", "concern", "civilian", "harm", "rights"].any
    (fun signal => pyIn signal (pyLower response))

/-- First index of `x`, as Python `list.index` (only called under a
membership guard; returns the length when absent). -/
def pyIndexOf : List String → String → Nat
  | [], _ => 0
  | a :: l, x => if a = x then 0 else pyIndexOf l x + 1

/-- Python `list.remove(x)`: drop the first occurrence. -/
def pyRemove : List String → String → List String
  | [], _ => []
  | a :: l, x => if a = x then l else a :: pyRemove l x

/-- Python `list.insert(i, x)`: insert at position `i`, clamping to the end. -/
def pyInsert : List String → Nat → String → List String
  | l, 0, x => x :: l
  | [], _ + 1, x => [x]
  | a :: l, n + 1, x => a :: pyInsert l n x

/-- `SquadDebate._adjust_speaking_order`, as the new value of
`self.standard_speaking_order` (the source builds a fresh list and rebinds
the attribute; on the guarded failure paths it leaves the attribute alone). -/
def adjust_speaking_order (order : List String) (priority_role : String) : List String :=
  if priority_role ∈ order then
    let o := pyRemove order priority_role
    if "leader" ∈ o then
      pyInsert o (pyIndexOf o "leader" + 1) priority_role
    else order
  else order

/-- The trigger checks at the end of each iteration of the round loop in
`SquadDebate.conduct_debate` (the `if role == "leader" ... elif role ==
"medic" ...` block). -/
def applyTriggers (st : SquadState) (role : String) (response : String)
    (user_input : String) : SquadState :=
  if role = "leader" && should_challenge_leader user_input then
    ⟨adjust_speaking_order st.standard_speaking_order "tactical"⟩
  else if role = "medic" && has_ethical_concerns response then
    ⟨adjust_speaking_order st.standard_speaking_order "medic"⟩
  else st

/-- The round loop of `SquadDebate.conduct_debate`.  The loop iterates the
list object that `self.standard_speaking_order` referred to when the loop
started; `_adjust_speaking_order` rebinds the attribute to a fresh list and
never mutates the iterated object, so the iteration sequence is the snapshot
passed here as `order`.  `none` models a `KeyError` from `self.hierarchy[role]`. -/
def runRound (user_input : String) (hist : List HistEntry) :
    List String → SquadState → Dict → Option (Dict × SquadState)
  | [], st, responses => some (responses, st)
  | role :: rest, st, responses =>
    match hierarchy role with
    | none => none
    | some gen =>
      let response := gen user_input hist
        (if responses.isEmpty then none else some responses)
      let responses2 := dictSet responses role response
      let st2 := applyTriggers st role response user_input
      runRound user_input hist rest st2 responses2

/-- `SquadDebate._is_complex_situation`. -/
def is_complex_situation (user_input : String) (responses : Dict) : Bool :=
  let has_disagreements := responses.any
    (fun p => ["disagree", "contrary", "challenge", "different", "opposing"].any
      (fun marker => pyIn marker (pyLower p.2)))
  decide ((pySplit user_input).length > 15) || has_disagreements

/-- The follow-up clause appended to the leader. -/
def leader_followup : String :=
  "I\x27ve considered the tactical assessment, but we need to maintain mission focus. "
    ++ "The concerns are noted but we\x27ll proceed as planned with slight adjustments."

/-- The follow-up clause appended to the tactical planner. -/
def tactical_followup : String :=
  "We can address the ethical concerns while maintaining tactical effectiveness. "
    ++ "I\x27ll incorporate these considerations into the revised approach."

/-- `SquadDebate._add_follow_up_responses`.  The unguarded `responses["leader"]
+=` and `responses["tactical"] +=` statements can raise `KeyError`, modelled
by `none`. -/
def add_follow_up_responses (responses : Dict) : Option Dict :=
  let step1 :=
    if containsKey responses "tactical"
        && pyIn "challenge" (pyLower (dictGetD responses "tactical")) then
      match dictGet? responses "leader" with
      | some lv => some (dictSet responses "leader"
          (lv ++ "\n\n**Follow-up:** " ++ leader_followup))
      | none => none
    else some responses
  match step1 with
  | none => none
  | some r1 =>
    if containsKey r1 "medic" && pyIn "ethical" (pyLower (dictGetD r1 "medic")) then
      match dictGet? r1 "tactical" with
      | some tv => some (dictSet r1 "tactical"
          (tv ++ "\n\n**Follow-up:** " ++ tactical_followup))
      | none => none
    else some r1

/-- `SquadDebate.conduct_debate`: one round over the speaking order held at
call entry, then the optional follow-up augmentation.  Returns the response
dictionary and the new orchestrator state.  `hist` is the conversation
history fetched from memory at the start of the call. -/
def conduct_debate (st : SquadState) (hist : List HistEntry) (user_input : String) :
    Option (Dict × SquadState) :=
  match runRound user_input hist st.standard_speaking_order st [] with
  | none => none
  | some (responses, st2) =>
    if is_complex_situation user_input responses then
      match add_follow_up_responses responses with
      | none => none
      | some r2 => some (r2, st2)
    else some (responses, st2)

/-- `SquadDebate.get_final_decision`. -/
def get_final_decision (responses : Dict) : String :=
  if containsKey responses "leader" then dictGetD responses "leader"
  else "The squad is still assessing the situation. Stand by for a decision."

/-! ## ConversationMemory (memory.py) -/

/-- One row of the `messages` table, in insertion (sequence-id) order. -/
structure MessageRow where
  timestamp : String
  speaker : String
  message : String
  message_kind : String
deriving Repr, DecidableEq

/-- `ConversationMemory.add_ai_message`: insert a row with kind
"ai_response"; the timestamp is passed explicitly (the source reads the
clock). -/
def add_ai_message (db : List MessageRow) (timestamp personality_name message : String) :
    List MessageRow :=
  db ++ [⟨timestamp, personality_name, message, "ai_response"⟩]

/-- `ConversationMemory.get_conversation_history`: select the most recent
`limit` rows (ORDER BY id DESC LIMIT ?), then reverse to chronological order
and repackage as dictionaries. -/
def get_conversation_history (db : List MessageRow) (limit : Nat) : List HistEntry :=
  ((db.reverse.take limit).reverse).map
    (fun r => ⟨r.timestamp, r.speaker, r.message, r.message_kind⟩)

/-! ## General lemmas about the string primitives -/

theorem pyLower_append (a b : String) : pyLower (a ++ b) = pyLower a ++ pyLower b := by
  cases a; cases b; simp [pyLower, data_append]; rfl

theorem string_ne_empty_iff (s : String) : s ≠ "" ↔ s.data ≠ [] := by
  constructor
  · intro h hl
    exact h (String.ext hl)
  · intro h he
    apply h
    rw [he]

theorem append_ne_empty_left (a b : String) (h : a ≠ "") : a ++ b ≠ "" := by
  rw [string_ne_empty_iff] at h ⊢
  rw [data_append]
  intro hh
  exact h (List.append_eq_nil.mp hh).1

theorem str_append_assoc (a b c : String) : a ++ b ++ c = a ++ (b ++ c) := by
  cases a; cases b; cases c
  apply congrArg String.mk
  show (_ ++ _) ++ _ = _ ++ (_ ++ _)
  exact List.append_assoc _ _ _

theorem isPrefixB_append (n l m : List Char) (h : isPrefixB n l = true) :
    isPrefixB n (l ++ m) = true := by
  induction n generalizing l with
  | nil => simp [isPrefixB]
  | cons a as ih =>
    cases l with
    | nil => simp [isPrefixB] at h
    | cons b bs =>
      simp only [isPrefixB, Bool.and_eq_true] at h ⊢
      exact ⟨h.1, ih bs h.2⟩

theorem isSubB_append (n l m : List Char) (h : isSubB n l = true) :
    isSubB n (l ++ m) = true := by
  induction l with
  | nil =>
    simp [isSubB] at h
    subst h
    cases m with
    | nil => simp [isSubB]
    | cons c cs => simp [isSubB, isPrefixB]
  | cons b bs ih =>
    simp only [isSubB, Bool.or_eq_true] at h ⊢
    rcases h with h | h
    · exact Or.inl (isPrefixB_append _ _ _ h)
    · exact Or.inr (ih h)

theorem pyIn_append_left (n a b : String) (h : pyIn n a = true) : pyIn n (a ++ b) = true := by
  unfold pyIn at h ⊢
  rw [data_append]
  exact isSubB_append _ _ _ h

theorem pyIn_pyLower_append_left (n a b : String) (h : pyIn n (pyLower a) = true) :
    pyIn n (pyLower (a ++ b)) = true := by
  rw [pyLower_append]
  exact pyIn_append_left _ _ _ h

/-! ## General lemmas about dictionaries -/

theorem mem_dictSet (d : Dict) (k v : String) (p : String × String)
    (h : p ∈ dictSet d k v) : p = (k, v) ∨ p ∈ d := by
  induction d with
  | nil => simpa [dictSet] using h
  | cons q d ih =>
    by_cases hq : q.1 = k
    · simp only [dictSet, if_pos hq, List.mem_cons] at h
      rcases h with h | h
      · exact Or.inl h
      · exact Or.inr (List.mem_cons_of_mem _ h)
    · simp only [dictSet, if_neg hq, List.mem_cons] at h
      rcases h with h | h
      · exact Or.inr (by simp [h])
      · rcases ih h with h | h
        · exact Or.inl h
        · exact Or.inr (List.mem_cons_of_mem _ h)

theorem keys_dictSet_of_contains (d : Dict) (k v : String)
    (h : containsKey d k = true) : (dictSet d k v).map Prod.fst = d.map Prod.fst := by
  induction d with
  | nil => simp [containsKey] at h
  | cons q d ih =>
    by_cases hq : q.1 = k
    · simp [dictSet, if_pos hq, hq]
    · have h' : containsKey d k = true := by
        simpa [containsKey, hq] using h
      simp [dictSet, if_neg hq, ih h']

theorem dictSet_of_not_contains (d : Dict) (k v : String)
    (h : containsKey d k = false) : dictSet d k v = d ++ [(k, v)] := by
  induction d with
  | nil => simp [dictSet]
  | cons q d ih =>
    have hq : ¬ q.1 = k := by
      intro hh
      simp [containsKey, hh] at h
    have h' : containsKey d k = false := by
      simpa [containsKey, hq] using h
    simp [dictSet, if_neg hq, ih h']

theorem containsKey_append (d e : Dict) (k : String) :
    containsKey (d ++ e) k = (containsKey d k || containsKey e k) := by
  simp [containsKey, List.any_append]

theorem containsKey_iff_mem_keys (d : Dict) (k : String) :
    containsKey d k = true ↔ k ∈ d.map Prod.fst := by
  induction d with
  | nil => simp [containsKey]
  | cons q d ih =>
    simp only [containsKey, List.any_cons, Bool.or_eq_true, List.map_cons, List.mem_cons,
      decide_eq_true_eq]
    rw [← containsKey] at *
    constructor
    · rintro (h | h)
      · exact Or.inl h.symm
      · exact Or.inr (ih.mp h)
    · rintro (h | h)
      · exact Or.inl h.symm
      · exact Or.inr (ih.mpr h)

theorem dictGet?_of_containsKey (d : Dict) (k : String)
    (h : containsKey d k = true) : ∃ v, dictGet? d k = some v := by
  induction d with
  | nil => simp [containsKey] at h
  | cons q d ih =>
    by_cases hq : q.1 = k
    · exact ⟨q.2, by simp [dictGet?, if_pos hq]⟩
    · have h' : containsKey d k = true := by
        simpa [containsKey, hq] using h
      rcases ih h' with ⟨v, hv⟩
      exact ⟨v, by simpa [dictGet?, if_neg hq] using hv⟩

theorem containsKey_of_dictGet? (d : Dict) (k v : String)
    (h : dictGet? d k = some v) : containsKey d k = true := by
  induction d with
  | nil => simp [dictGet?] at h
  | cons q d ih =>
    by_cases hq : q.1 = k
    · simp [containsKey, hq]
    · rw [dictGet?, if_neg hq] at h
      simpa [containsKey, hq] using ih h

theorem mem_of_dictGet? (d : Dict) (k v : String)
    (h : dictGet? d k = some v) : (k, v) ∈ d := by
  induction d with
  | nil => simp [dictGet?] at h
  | cons q d ih =>
    by_cases hq : q.1 = k
    · rw [dictGet?, if_pos hq] at h
      cases h
      cases q
      simp_all
    · rw [dictGet?, if_neg hq] at h
      exact List.mem_cons_of_mem _ (ih h)

theorem dictGet?_dictSet_same (d : Dict) (k v : String) :
    dictGet? (dictSet d k v) k = some v := by
  induction d with
  | nil => simp [dictSet, dictGet?]
  | cons q d ih =>
    by_cases hq : q.1 = k
    · simp [dictSet, if_pos hq, dictGet?]
    · rw [dictSet, if_neg hq, dictGet?, if_neg hq]
      exact ih

theorem dictGet?_dictSet_other (d : Dict) (k v k' : String) (h : k' ≠ k) :
    dictGet? (dictSet d k v) k' = dictGet? d k' := by
  induction d with
  | nil =>
    have hkk : ¬ k = k' := fun hh => h hh.symm
    simp [dictSet, dictGet?, hkk]
  | cons q d ih =>
    by_cases hq : q.1 = k
    · have hk1 : ¬ ((k, v).1 = k') := fun hh => h hh.symm
      have hq1 : ¬ (q.1 = k') := by
        rw [hq]
        exact fun hh => h hh.symm
      rw [dictSet, if_pos hq, dictGet?, if_neg hk1, dictGet?, if_neg hq1]
    · by_cases hq' : q.1 = k'
      · rw [dictSet, if_neg hq, dictGet?, if_pos hq', dictGet?, if_pos hq']
      · rw [dictSet, if_neg hq, dictGet?, if_neg hq', dictGet?, if_neg hq']
        exact ih

/-! ## Permutation facts about the reorder primitives -/

theorem pyRemove_perm (l : List String) (x : String) (h : x ∈ l) :
    l.Perm (x :: pyRemove l x) := by
  induction l with
  | nil => cases h
  | cons a l ih =>
    by_cases ha : a = x
    · subst ha
      simp [pyRemove]
    · have hx : x ∈ l := by
        rcases List.mem_cons.mp h with h1 | h1
        · exact absurd h1.symm ha
        · exact h1
      have h2 : (a :: l).Perm (a :: x :: pyRemove l x) := (ih hx).cons a
      have h3 : (a :: x :: pyRemove l x).Perm (x :: a :: pyRemove l x) :=
        List.Perm.swap x a _
      simpa [pyRemove, ha] using h2.trans h3

theorem pyInsert_perm (l : List String) (n : Nat) (x : String) :
    (pyInsert l n x).Perm (x :: l) := by
  induction l generalizing n with
  | nil =>
    cases n with
    | zero => simp [pyInsert]
    | succ m => simp [pyInsert]
  | cons a l ih =>
    cases n with
    | zero => simp [pyInsert]
    | succ m =>
      have h2 : (a :: pyInsert l m x).Perm (a :: x :: l) := (ih m).cons a
      have h3 : (a :: x :: l).Perm (x :: a :: l) := List.Perm.swap x a l
      simpa [pyInsert] using h2.trans h3

theorem adjust_speaking_order_perm_self (order : List String) (r : String) :
    (adjust_speaking_order order r).Perm order := by
  unfold adjust_speaking_order
  by_cases hr : r ∈ order
  · rw [if_pos hr]
    by_cases hl : "leader" ∈ pyRemove order r
    · rw [if_pos hl]
      exact (pyInsert_perm _ _ _).trans (pyRemove_perm order r hr).symm
    · rw [if_neg hl]
  · rw [if_neg hr]

/-! ## Every generator produces a non-empty string -/

theorem ite_ne_empty (c : Prop) [Decidable c] (a b : String) (ha : a ≠ "") (hb : b ≠ "") :
    (if c then a else b) ≠ "" := by
  split
  · exact ha
  · exact hb

theorem leader_gen_ne (u : String) (hist : List HistEntry) (sq : Option Dict) :
    Leader.generate_response u hist sq ≠ "" := by
  unfold Leader.generate_response Leader.generate_initial_assessment Leader.generate_decision
  repeat' first
  | apply append_ne_empty_left
  | apply ite_ne_empty
  all_goals decide

theorem tactical_gen_ne (u : String) (hist : List HistEntry) (sq : Option Dict) :
    TacticalPlanner.generate_response u hist sq ≠ "" := by
  unfold TacticalPlanner.generate_response TacticalPlanner.generate_tactical_analysis
    TacticalPlanner.generate_initial_tactical_thoughts
  repeat' first
  | apply append_ne_empty_left
  | apply ite_ne_empty
  all_goals decide

theorem medic_gen_ne (u : String) (hist : List HistEntry) (sq : Option Dict) :
    Medic.generate_response u hist sq ≠ "" := by
  unfold Medic.generate_response Medic.generate_ethical_assessment
    Medic.generate_initial_ethical_thoughts
  repeat' first
  | apply append_ne_empty_left
  | apply ite_ne_empty
  all_goals decide

theorem scout_gen_ne (u : String) (hist : List HistEntry) (sq : Option Dict) :
    Scout.generate_response u hist sq ≠ "" := by
  unfold Scout.generate_response Scout.generate_observational_input
    Scout.generate_initial_observations
  repeat' first
  | apply append_ne_empty_left
  | apply ite_ne_empty
  all_goals decide

/-- Every role of the loop resolves in the hierarchy to a generator that
always produces non-empty text. -/
theorem hierarchy_mem (r : String) (h : r ∈ fourRoles) :
    ∃ gen, hierarchy r = some gen ∧ ∀ u hist sq, gen u hist sq ≠ "" := by
  simp only [fourRoles, List.mem_cons, List.not_mem_nil, or_false] at h
  rcases h with h | h | h | h
  all_goals subst h
  · exact ⟨_, by simp [hierarchy], leader_gen_ne⟩
  · exact ⟨_, by simp [hierarchy], tactical_gen_ne⟩
  · exact ⟨_, by simp [hierarchy], medic_gen_ne⟩
  · exact ⟨_, by simp [hierarchy], scout_gen_ne⟩

/-- The round loop always succeeds on roles drawn from the hierarchy,
records responses keyed exactly in the visiting order, and adds only
non-empty response text. -/
theorem runRound_big (u : String) (hist : List HistEntry) :
    ∀ (order : List String) (st : SquadState) (resp : Dict),
      (∀ r ∈ order, r ∈ fourRoles) → order.Nodup →
      (∀ r ∈ order, containsKey resp r = false) →
      ∃ out st2, runRound u hist order st resp = some (out, st2) ∧
        out.map Prod.fst = resp.map Prod.fst ++ order ∧
        (∀ p ∈ out, p ∈ resp ∨ p.2 ≠ "") := by
  intro order
  induction order with
  | nil =>
    intro st resp h1 h2 h3
    exact ⟨resp, st, rfl, by simp, fun p hp => Or.inl hp⟩
  | cons role rest ih =>
    intro st resp h1 h2 h3
    obtain ⟨gen, hgen, hne⟩ := hierarchy_mem role (h1 role (by simp))
    set rsp : String := gen u hist (if resp.isEmpty then none else some resp) with hrsp
    have hck : containsKey resp role = false := h3 role (by simp)
    have hset : dictSet resp role rsp = resp ++ [(role, rsp)] :=
      dictSet_of_not_contains _ _ _ hck
    have h1' : ∀ r ∈ rest, r ∈ fourRoles := fun r hr => h1 r (List.mem_cons_of_mem _ hr)
    have hnd := List.nodup_cons.mp h2
    have h3' : ∀ r ∈ rest, containsKey (resp ++ [(role, rsp)]) r = false := by
      intro r hr
      rw [containsKey_append]
      have hzr : containsKey resp r = false := h3 r (List.mem_cons_of_mem _ hr)
      have hneq : ¬ (role = r) := by
        intro hh
        apply hnd.1
        rw [hh]
        exact hr
      rw [hzr]
      simp [containsKey, hneq]
    obtain ⟨out, st2, hrun, hkeys, hmem⟩ :=
      ih (applyTriggers st role rsp u) (resp ++ [(role, rsp)]) h1' hnd.2 h3'
    refine ⟨out, st2, ?_, ?_, ?_⟩
    · simp only [runRound, hgen, ← hrsp, hset]
      exact hrun
    · rw [hkeys]
      simp
    · intro p hp
      rcases hmem p hp with hpin | hpne
      · rcases List.mem_append.mp hpin with h | h
        · exact Or.inl h
        · right
          have hp2 : p = (role, rsp) := by simpa using h
          rw [hp2]
          exact hne u hist _
      · exact Or.inr hpne

theorem containsKey_congr (d e : Dict) (h : d.map Prod.fst = e.map Prod.fst) (k : String) :
    containsKey d k = containsKey e k := by
  by_cases hk : k ∈ e.map Prod.fst
  · rw [(containsKey_iff_mem_keys e k).mpr hk, (containsKey_iff_mem_keys d k).mpr (by rw [h]; exact hk)]
  · have h1 : containsKey d k ≠ true := by
      intro hc
      apply hk
      rw [← h]
      exact (containsKey_iff_mem_keys d k).mp hc
    have h2 : containsKey e k ≠ true := by
      intro hc
      exact hk ((containsKey_iff_mem_keys e k).mp hc)
    rw [Bool.eq_false_iff.mpr h1, Bool.eq_false_iff.mpr h2]


/-- Exact effect of `_add_follow_up_responses` when the three inspected keys
are present. -/
theorem add_follow_up_lookups (resp : Dict) (lv tv mv : String)
    (hl : dictGet? resp "leader" = some lv)
    (ht : dictGet? resp "tactical" = some tv)
    (hm : dictGet? resp "medic" = some mv) :
    ∃ out, add_follow_up_responses resp = some out ∧
      dictGet? out "leader" = some (if pyIn "challenge" (pyLower tv) = true then
        lv ++ "\n\n**Follow-up:** " ++ leader_followup else lv) ∧
      dictGet? out "tactical" = some (if pyIn "ethical" (pyLower mv) = true then
        tv ++ "\n\n**Follow-up:** " ++ tactical_followup else tv) ∧
      dictGet? out "medic" = some mv ∧
      out.map Prod.fst = resp.map Prod.fst ∧
      (∀ p ∈ out, p ∈ resp ∨ ∃ q s, (p.1, q) ∈ resp ∧ p.2 = q ++ s) ∧
      (∀ role, ¬ role = "leader" → ¬ role = "tactical" →
        dictGet? out role = dictGet? resp role) := by
  have hct : containsKey resp "tactical" = true := containsKey_of_dictGet? _ _ _ ht
  have hcl : containsKey resp "leader" = true := containsKey_of_dictGet? _ _ _ hl
  have hcm : containsKey resp "medic" = true := containsKey_of_dictGet? _ _ _ hm
  have hdt : dictGetD resp "tactical" = tv := by rw [dictGetD, ht]; rfl
  have hdm : dictGetD resp "medic" = mv := by rw [dictGetD, hm]; rfl
  by_cases hc1 : pyIn "challenge" (pyLower tv) = true
  · -- the leader follow-up fires
    have hkeys1 : (dictSet resp "leader"
        (lv ++ "\n\n**Follow-up:** " ++ leader_followup)).map Prod.fst = resp.map Prod.fst :=
      keys_dictSet_of_contains _ _ _ hcl
    have hck2 : containsKey (dictSet resp "leader"
        (lv ++ "\n\n**Follow-up:** " ++ leader_followup)) "medic" = true := by
      rw [containsKey_congr _ resp hkeys1]
      exact hcm
    have hgd2 : dictGetD (dictSet resp "leader"
        (lv ++ "\n\n**Follow-up:** " ++ leader_followup)) "medic" = mv := by
      rw [dictGetD, dictGet?_dictSet_other _ _ _ _ (by decide), hm]
      rfl
    have hgt2 : dictGet? (dictSet resp "leader"
        (lv ++ "\n\n**Follow-up:** " ++ leader_followup)) "tactical" = some tv := by
      rw [dictGet?_dictSet_other _ _ _ _ (by decide)]
      exact ht
    have hmem1 : ∀ p ∈ dictSet resp "leader" (lv ++ "\n\n**Follow-up:** " ++ leader_followup),
        p ∈ resp ∨ ∃ q s, (p.1, q) ∈ resp ∧ p.2 = q ++ s := by
      intro p hp
      rcases mem_dictSet _ _ _ _ hp with hp1 | hp1
      · right
        refine ⟨lv, "\n\n**Follow-up:** " ++ leader_followup, ?_, ?_⟩
        · rw [hp1]
          exact mem_of_dictGet? _ _ _ hl
        · rw [hp1]
          exact str_append_assoc _ _ _
      · exact Or.inl hp1
    simp only [add_follow_up_responses, hct, hdt, hc1, Bool.true_and, if_true, hl,
      hck2, hgd2, hgt2]
    by_cases hc2 : pyIn "ethical" (pyLower mv) = true
    · simp only [hc2, if_true]
      refine ⟨_, rfl, ?_, ?_, ?_, ?_, ?_, ?_⟩
      · rw [dictGet?_dictSet_other _ _ _ _ (by decide), dictGet?_dictSet_same]
      · rw [dictGet?_dictSet_same]
      · rw [dictGet?_dictSet_other _ _ _ _ (by decide),
          dictGet?_dictSet_other _ _ _ _ (by decide)]
        exact hm
      · rw [keys_dictSet_of_contains _ _ _ (containsKey_of_dictGet? _ _ _ hgt2), hkeys1]
      · intro p hp
        rcases mem_dictSet _ _ _ _ hp with hp1 | hp1
        · right
          refine ⟨tv, "\n\n**Follow-up:** " ++ tactical_followup, ?_, ?_⟩
          · rw [hp1]
            exact mem_of_dictGet? _ _ _ ht
          · rw [hp1]
            exact str_append_assoc _ _ _
        · exact hmem1 p hp1
      · intro role h1 h2
        rw [dictGet?_dictSet_other _ _ _ _ h2, dictGet?_dictSet_other _ _ _ _ h1]
    · rw [if_neg hc2]
      refine ⟨_, rfl, ?_, ?_, ?_, hkeys1, hmem1, ?_⟩
      · rw [dictGet?_dictSet_same]
      · rw [hgt2, if_neg hc2]
      · rw [dictGet?_dictSet_other _ _ _ _ (by decide)]
        exact hm
      · intro role h1 h2
        rw [dictGet?_dictSet_other _ _ _ _ h1]
  · -- no leader follow-up
    simp only [add_follow_up_responses, hct, hdt, Bool.true_and, if_neg hc1, hcm, hdm]
    by_cases hc2 : pyIn "ethical" (pyLower mv) = true
    · simp only [hc2, if_true, ht]
      refine ⟨_, rfl, ?_, ?_, ?_, ?_, ?_, ?_⟩
      · rw [dictGet?_dictSet_other _ _ _ _ (by decide), hl]
      · rw [dictGet?_dictSet_same]
      · rw [dictGet?_dictSet_other _ _ _ _ (by decide)]
        exact hm
      · exact keys_dictSet_of_contains _ _ _ hct
      · intro p hp
        rcases mem_dictSet _ _ _ _ hp with hp1 | hp1
        · right
          refine ⟨tv, "\n\n**Follow-up:** " ++ tactical_followup, ?_, ?_⟩
          · rw [hp1]
            exact mem_of_dictGet? _ _ _ ht
          · rw [hp1]
            exact str_append_assoc _ _ _
        · exact Or.inl hp1
      · intro role h1 h2
        rw [dictGet?_dictSet_other _ _ _ _ h2]
    · rw [if_neg hc2]
      refine ⟨resp, rfl, ?_, ?_, hm, rfl, fun p hp => Or.inl hp, fun role h1 h2 => rfl⟩
      · rw [hl]
      · rw [ht, if_neg hc2]

/-! ## Closed forms of one round from the two reachable speaking orders -/

def leaderText (u : String) : String := Leader.generate_initial_assessment u

def tacticalText (u : String) : String :=
  TacticalPlanner.generate_tactical_analysis u (leaderText u)

def medicText (u : String) : String :=
  Medic.generate_ethical_assessment u [("leader", leaderText u)]

def scoutText : String :=
  Scout.generate_observational_input "" [("a", "a"), ("b", "b")]

theorem leader_step (u : String) (hist : List HistEntry) :
    Leader.generate_response u hist none = leaderText u := rfl

theorem tactical_step (u : String) (hist : List HistEntry) :
    TacticalPlanner.generate_response u hist (some [("leader", leaderText u)]) =
      tacticalText u := by
  unfold TacticalPlanner.generate_response tacticalText
  rw [if_pos]
  · rw [show dictGetD ((some [("leader", leaderText u)]).getD []) "leader" = leaderText u from rfl]
  · rfl

theorem tactical_step2 (u : String) (hist : List HistEntry) :
    TacticalPlanner.generate_response u hist
      (some [("leader", leaderText u), ("medic", medicText u)]) = tacticalText u := by
  unfold TacticalPlanner.generate_response tacticalText
  rw [if_pos]
  · rw [show dictGetD ((some [("leader", leaderText u), ("medic", medicText u)]).getD [])
        "leader" = leaderText u from rfl]
  · rfl

theorem medic_step (u : String) (hist : List HistEntry) :
    Medic.generate_response u hist
      (some [("leader", leaderText u), ("tactical", tacticalText u)]) = medicText u := by
  unfold Medic.generate_response medicText
  rw [if_pos]
  · simp +decide [Medic.generate_ethical_assessment, containsKey, dictGetD, dictGet?]
  · rfl

theorem medic_step2 (u : String) (hist : List HistEntry) :
    Medic.generate_response u hist (some [("leader", leaderText u)]) = medicText u := by
  unfold Medic.generate_response medicText
  rw [if_pos]
  · rfl
  · rfl

theorem scout_step (u : String) (hist : List HistEntry) (a b c : String × String) :
    Scout.generate_response u hist (some [a, b, c]) = scoutText := by
  unfold Scout.generate_response scoutText
  rw [if_pos]
  · unfold Scout.generate_observational_input
    rw [if_pos, if_pos]
    · simp
    · simp
  · rfl

theorem pyIn_ethical_medicText (u : String) :
    pyIn "ethical" (pyLower (medicText u)) = true := by
  unfold medicText Medic.generate_ethical_assessment
  rw [show containsKey [("leader", leaderText u)] "squad_responses" = false from rfl,
    Bool.false_and]
  rw [show containsKey [("leader", leaderText u)] "leader" = true from rfl]
  simp only [Bool.false_eq_true, if_false, if_true]
  split
  · apply pyIn_pyLower_append_left
    apply pyIn_pyLower_append_left
    apply pyIn_pyLower_append_left
    decide
  · apply pyIn_pyLower_append_left
    apply pyIn_pyLower_append_left
    apply pyIn_pyLower_append_left
    decide

theorem has_ethical_medicText (u : String) :
    has_ethical_concerns (medicText u) = true := by
  simp only [has_ethical_concerns, List.any, Bool.or_eq_true]
  exact Or.inl (pyIn_ethical_medicText u)

theorem hierarchy_leader : hierarchy "leader" = some Leader.generate_response := rfl

theorem hierarchy_tactical : hierarchy "tactical" = some TacticalPlanner.generate_response := rfl

theorem hierarchy_medic : hierarchy "medic" = some Medic.generate_response := rfl

theorem hierarchy_scout : hierarchy "scout" = some Scout.generate_response := rfl

theorem runRound_LTMS (u : String) (hist : List HistEntry) :
    runRound u hist ["leader", "tactical", "medic", "scout"]
      ⟨["leader", "tactical", "medic", "scout"]⟩ [] =
    some ([("leader", leaderText u), ("tactical", tacticalText u),
           ("medic", medicText u), ("scout", scoutText)],
          ⟨["leader", "medic", "tactical", "scout"]⟩) := by
  cases hsc : should_challenge_leader u <;>
    simp [runRound, hierarchy_leader, hierarchy_tactical, hierarchy_medic, hierarchy_scout,
      leader_step, tactical_step, medic_step, scout_step, dictSet, applyTriggers, hsc,
      has_ethical_medicText, adjust_speaking_order, pyRemove, pyIndexOf, pyInsert]

theorem runRound_LMTS (u : String) (hist : List HistEntry) :
    runRound u hist ["leader", "medic", "tactical", "scout"]
      ⟨["leader", "medic", "tactical", "scout"]⟩ [] =
    some ([("leader", leaderText u), ("medic", medicText u),
           ("tactical", tacticalText u), ("scout", scoutText)],
          ⟨["leader", "medic", "tactical", "scout"]⟩) := by
  cases hsc : should_challenge_leader u <;>
    simp [runRound, hierarchy_leader, hierarchy_tactical, hierarchy_medic, hierarchy_scout,
      leader_step, tactical_step2, medic_step2, scout_step, dictSet, applyTriggers, hsc,
      has_ethical_medicText, adjust_speaking_order, pyRemove, pyIndexOf, pyInsert]

/-! ## Conduct-level composition lemmas -/

/-- The speaking orders reachable on a `SquadDebate` instance (the order at
construction and the one every call leaves behind). -/
def reachableOrders : List (List String) :=
  [["leader", "tactical", "medic", "scout"], ["leader", "medic", "tactical", "scout"]]

/-- The per-response disagreement check inside `_is_complex_situation`. -/
def disagreeB (t : String) : Bool :=
  ["disagree", "contrary", "challenge", "different", "opposing"].any
    (fun marker => pyIn marker (pyLower t))

theorem is_complex_four (u : String) (k1 k2 k3 k4 a1 a2 a3 a4 : String) :
    is_complex_situation u [(k1, a1), (k2, a2), (k3, a3), (k4, a4)] =
      (decide ((pySplit u).length > 15) ||
        (disagreeB a1 || (disagreeB a2 || (disagreeB a3 || (disagreeB a4 || false))))) := rfl

theorem is_complex_swap (u lv tv mv sv : String) :
    is_complex_situation u [("leader", lv), ("medic", mv), ("tactical", tv), ("scout", sv)] =
    is_complex_situation u [("leader", lv), ("tactical", tv), ("medic", mv), ("scout", sv)] := by
  rw [is_complex_four, is_complex_four]
  cases disagreeB tv <;> cases disagreeB mv <;> simp

theorem dictGet?_four_swap (lv tv mv sv : String) (role : String) :
    dictGet? [("leader", lv), ("medic", mv), ("tactical", tv), ("scout", sv)] role =
    dictGet? [("leader", lv), ("tactical", tv), ("medic", mv), ("scout", sv)] role := by
  by_cases h1 : "leader" = role
  · simp only [dictGet?, if_pos h1]
  · by_cases h2 : "tactical" = role
    · have h3 : ¬ ("medic" = role) := by
        intro hh
        rw [← h2] at hh
        exact absurd hh (by decide)
      simp only [dictGet?, if_neg h1, if_pos h2, if_neg h3]
    · by_cases h3 : "medic" = role
      · simp only [dictGet?, if_neg h1, if_neg h2, if_pos h3]
      · simp only [dictGet?, if_neg h1, if_neg h2, if_neg h3]

/-- `conduct_debate` is the round loop followed by the optional follow-up
augmentation; this lemma packages both outcomes. -/
theorem conduct_from_round (st : SquadState) (hist : List HistEntry) (u : String)
    (r0 : Dict) (st2 : SquadState) (lv tv mv : String)
    (hrun : runRound u hist st.standard_speaking_order st [] = some (r0, st2))
    (hl : dictGet? r0 "leader" = some lv)
    (ht : dictGet? r0 "tactical" = some tv)
    (hm : dictGet? r0 "medic" = some mv) :
    ∃ r, conduct_debate st hist u = some (r, st2) ∧
      ((is_complex_situation u r0 = false ∧ r = r0) ∨
       (is_complex_situation u r0 = true ∧
         dictGet? r "leader" = some (if pyIn "challenge" (pyLower tv) = true then
           lv ++ "\n\n**Follow-up:** " ++ leader_followup else lv) ∧
         dictGet? r "tactical" = some (if pyIn "ethical" (pyLower mv) = true then
           tv ++ "\n\n**Follow-up:** " ++ tactical_followup else tv) ∧
         dictGet? r "medic" = some mv ∧
         r.map Prod.fst = r0.map Prod.fst ∧
         (∀ p ∈ r, p ∈ r0 ∨ ∃ q s, (p.1, q) ∈ r0 ∧ p.2 = q ++ s) ∧
         (∀ role, ¬ role = "leader" → ¬ role = "tactical" →
           dictGet? r role = dictGet? r0 role))) := by
  have hce : conduct_debate st hist u = (if is_complex_situation u r0 = true then
      match add_follow_up_responses r0 with
      | none => none
      | some r2 => some (r2, st2)
    else some (r0, st2)) := by
    unfold conduct_debate
    rw [hrun]
  by_cases hcx : is_complex_situation u r0 = true
  · rw [hce, if_pos hcx]
    obtain ⟨out, hout, h1, h2, h3, h4, h5, h6⟩ := add_follow_up_lookups r0 lv tv mv hl ht hm
    rw [hout]
    exact ⟨out, rfl, Or.inr ⟨hcx, h1, h2, h3, h4, h5, h6⟩⟩
  · rw [hce, if_neg hcx]
    exact ⟨r0, rfl, Or.inl ⟨Bool.eq_false_iff.mpr hcx, rfl⟩⟩

/-! ## Claim theorems -/

/-- C5: for every speaking order that is a permutation of the identifier set
(leader, tactical, medic, scout) and every priority role passed by a
reordering trigger, `_adjust_speaking_order` yields again a permutation of
that identifier set: no identifier is dropped and none is duplicated. -/
theorem adjust_speaking_order_preserves_perm (order : List String) (r : String)
    (h : order.Perm fourRoles) : (adjust_speaking_order order r).Perm fourRoles :=
  (adjust_speaking_order_perm_self order r).trans h

/-- Witness for C5 at a concrete order and the "medic" trigger. -/
theorem adjust_speaking_order_preserves_perm_witness :
    (["leader", "tactical", "medic", "scout"] : List String).Perm fourRoles ∧
    (adjust_speaking_order ["leader", "tactical", "medic", "scout"] "medic").Perm fourRoles :=
  ⟨by decide, adjust_speaking_order_preserves_perm ["leader", "tactical", "medic", "scout"]
      "medic" (by decide)⟩

/-- C7: `get_final_decision` returns the leader text when the key "leader"
is present and the fixed fallback string otherwise; in particular on the
empty mapping it returns the fallback (and, being a total function, never
raises). -/
theorem get_final_decision_spec (responses : Dict) :
    (∀ l, dictGet? responses "leader" = some l → get_final_decision responses = l) ∧
    (dictGet? responses "leader" = none →
      get_final_decision responses =
        "The squad is still assessing the situation. Stand by for a decision.") ∧
    get_final_decision [] =
      "The squad is still assessing the situation. Stand by for a decision." := by
  refine ⟨?_, ?_, rfl⟩
  · intro l hl
    unfold get_final_decision
    rw [if_pos (containsKey_of_dictGet? _ _ _ hl), dictGetD, hl]
    rfl
  · intro hn
    unfold get_final_decision
    rw [if_neg]
    intro hc
    rcases dictGet?_of_containsKey _ _ hc with ⟨v, hv⟩
    rw [hv] at hn
    exact Option.noConfusion hn

/-- Witness for C7: a mapping with a leader entry and the empty mapping. -/
theorem get_final_decision_spec_witness :
    get_final_decision [("leader", "go")] = "go" ∧
    get_final_decision [] =
      "The squad is still assessing the situation. Stand by for a decision." :=
  ⟨(get_final_decision_spec [("leader", "go")]).1 "go" rfl,
   (get_final_decision_spec []).2.2⟩

/-- C9: appending one entry to the conversation memory and then reading the
single most recent entry returns exactly that entry: its speaker is the
given speaker and its content is the given text. -/
theorem memory_append_recent_round_trip (db : List MessageRow) (ts s t : String) :
    ∃ e, get_conversation_history (add_ai_message db ts s t) 1 = [e] ∧
      e.speaker = s ∧ e.content = t := by
  refine ⟨⟨ts, s, t, "ai_response"⟩, ?_, rfl, rfl⟩
  unfold get_conversation_history add_ai_message
  rw [List.reverse_append]
  simp

/-- C2 (code evaluated at the failing input): the Medic receives a
priorResponses mapping holding only a tactical entry full of aggression
keywords ("attack", "force"), yet neither the concern clause nor the
reassurance clause appears in the produced response, because the source
tests membership of the literal key "squad_responses" instead of the
tactical entry.  The produced response is exactly the bare template. -/
theorem medic_concern_clause_dead :
    pyIn "attack" (pyLower "we will attack with force") = true ∧
    Medic.generate_response "scenario" [] (some [("tactical", "we will attack with force")]) =
      "Looking at this from a humanitarian and ethical standpoint:\n\n"
        ++ "We need to consider the human elements at play. " ∧
    pyIn "I have concerns" (Medic.generate_response "scenario" []
      (some [("tactical", "we will attack with force")])) = false ∧
    pyIn "The tactical plan seems sound" (Medic.generate_response "scenario" []
      (some [("tactical", "we will attack with force")])) = false := by
  exact ⟨by decide, rfl, by decide, by decide⟩

/-- The fixed numbered strategic-analysis template of the tactical planner. -/
def tactical_header : String :=
  "From a tactical perspective, I see multiple angles to consider:\n\n"
    ++ "1. The approach suggested has a 65% probability of success based on similar scenarios.\n"
    ++ "2. We should consider alternative entry points to mitigate potential risks.\n"
    ++ "3. The timeline needs adjustment to account for unexpected variables.\n\n"

/-- The challenge clause of the tactical planner. -/
def tactical_challenge_clause : String :=
  "Commander, with respect, a more indirect approach may yield better results with fewer risks. "
    ++ "We should consider a flanking maneuver rather than a head-on engagement."

/-- The concurrence clause of the tactical planner. -/
def tactical_concur_clause : String :=
  "I concur with the core assessment, but recommend we establish secondary and tertiary "
    ++ "contingencies to increase our operational flexibility."

/-- C4 counterexample: the leader text "The Straightforward plan is best"
contains "straightforward" case-insensitively, so the claim (and spec)
demand the challenge clause, but the code performs a case-sensitive check
and emits the concurrence clause instead. -/
theorem tactical_case_insensitive_cex :
    pyIn "straightforward" (pyLower "The Straightforward plan is best") = true ∧
    pyIn "flanking maneuver" (TacticalPlanner.generate_response "u" []
      (some [("leader", "The Straightforward plan is best")])) = false ∧
    pyIn "I concur with the core assessment" (TacticalPlanner.generate_response "u" []
      (some [("leader", "The Straightforward plan is best")])) = true := by
  exact ⟨by decide, by decide, by decide⟩

/-- C4 (amended): when priorResponses contains a leader entry, the tactical
response is the numbered strategic-analysis template followed by the
challenge clause if the leader text contains the substring "direct approach"
or "straightforward" CASE-SENSITIVELY, and by the concurrence clause
otherwise. -/
theorem tactical_respond_spec (u : String) (hist : List HistEntry) (d : Dict) (lv : String)
    (h : dictGet? d "leader" = some lv) :
    TacticalPlanner.generate_response u hist (some d) =
      tactical_header ++
        (if (pyIn "direct approach" lv || pyIn "straightforward" lv) = true
          then tactical_challenge_clause else tactical_concur_clause) := by
  unfold TacticalPlanner.generate_response
  rw [if_pos]
  · unfold TacticalPlanner.generate_tactical_analysis
    have hx : dictGetD ((some d).getD []) "leader" = lv := by
      rw [show (some d).getD ([] : Dict) = d from rfl, dictGetD, h]
      rfl
    rw [hx]
    by_cases hc : (pyIn "direct approach" lv || pyIn "straightforward" lv) = true
    · rw [if_pos hc, if_pos hc, str_append_assoc]
      rfl
    · rw [if_neg hc, if_neg hc, str_append_assoc]
      rfl
  · cases d with
    | nil => simp [dictGet?] at h
    | cons p d2 =>
      simp only [pyTruthy, List.isEmpty, Bool.not_false, Option.getD_some, Bool.true_and]
      exact containsKey_of_dictGet? _ _ _ h

/-- Witness for C4 (amended) at a concrete leader text containing the
lower-case substring "direct approach". -/
theorem tactical_respond_spec_witness :
    dictGet? [("leader", "use a direct approach")] "leader" = some "use a direct approach" ∧
    TacticalPlanner.generate_response "w" [] (some [("leader", "use a direct approach")]) =
      tactical_header ++
        (if (pyIn "direct approach" "use a direct approach"
              || pyIn "straightforward" "use a direct approach") = true
          then tactical_challenge_clause else tactical_concur_clause) :=
  ⟨rfl, tactical_respond_spec "w" [] [("leader", "use a direct approach")]
    "use a direct approach" rfl⟩

/-- C3 counterexample: starting from the freshly constructed state, one call
to `conduct_debate` on input "hello" leaves the stored speaking order
modified to (leader, medic, tactical, scout) — not the default — and a
second call on the same instance visits the participants in that modified
order.  The modified speaking order therefore persists from one call to the
next. -/
theorem speaking_order_persists_cex :
    (conduct_debate initialState [] "hello").map (fun p => p.2) =
      some ⟨["leader", "medic", "tactical", "scout"]⟩ ∧
    (⟨["leader", "medic", "tactical", "scout"]⟩ : SquadState) ≠ initialState ∧
    (conduct_debate ⟨["leader", "medic", "tactical", "scout"]⟩ [] "hello").map
      (fun p => p.1.map Prod.fst) = some ["leader", "medic", "tactical", "scout"] := by
  obtain ⟨r, hcon, hcase⟩ := conduct_from_round initialState [] "hello"
    [("leader", leaderText "hello"), ("tactical", tacticalText "hello"),
     ("medic", medicText "hello"), ("scout", scoutText)]
    ⟨["leader", "medic", "tactical", "scout"]⟩
    (leaderText "hello") (tacticalText "hello") (medicText "hello")
    (runRound_LTMS "hello" []) rfl rfl rfl
  obtain ⟨r2, hcon2, hcase2⟩ :=
    conduct_from_round ⟨["leader", "medic", "tactical", "scout"]⟩ [] "hello"
    [("leader", leaderText "hello"), ("medic", medicText "hello"),
     ("tactical", tacticalText "hello"), ("scout", scoutText)]
    ⟨["leader", "medic", "tactical", "scout"]⟩
    (leaderText "hello") (tacticalText "hello") (medicText "hello")
    (runRound_LMTS "hello" []) rfl rfl rfl
  have hkeys2 : r2.map Prod.fst = ["leader", "medic", "tactical", "scout"] := by
    rcases hcase2 with ⟨_, hr⟩ | ⟨_, _, _, _, hk, _, _⟩
    · rw [hr]
      rfl
    · rw [hk]
      rfl
  refine ⟨by rw [hcon]; rfl, by decide, ?_⟩
  rw [hcon2]
  rw [show (some (r2, (⟨["leader", "medic", "tactical", "scout"]⟩ : SquadState))).map
    (fun p => p.1.map Prod.fst) = some (r2.map Prod.fst) from rfl, hkeys2]

/-- C3 (amended): each call to `conduct_debate` conducts exactly one round
over the speaking order stored on the instance at the start of the call
(one response per stored role, in that order); the order is initialized to
(leader, tactical, medic, scout) at construction only, and reorder
adjustments persist on the instance: every call from the initial state
leaves the stored order (leader, medic, tactical, scout), which the next
call then uses. -/
theorem conduct_debate_one_round_and_order_persists (u : String) (hist : List HistEntry) :
    ∃ r st2, conduct_debate initialState hist u = some (r, st2) ∧
      r.map Prod.fst = initialState.standard_speaking_order ∧
      st2.standard_speaking_order = ["leader", "medic", "tactical", "scout"] ∧
      ∃ r2 st3, conduct_debate st2 hist u = some (r2, st3) ∧
        r2.map Prod.fst = st2.standard_speaking_order ∧
        st3.standard_speaking_order = ["leader", "medic", "tactical", "scout"] := by
  obtain ⟨r, hcon, hcase⟩ := conduct_from_round initialState hist u
    [("leader", leaderText u), ("tactical", tacticalText u),
     ("medic", medicText u), ("scout", scoutText)]
    ⟨["leader", "medic", "tactical", "scout"]⟩
    (leaderText u) (tacticalText u) (medicText u)
    (runRound_LTMS u hist) rfl rfl rfl
  have hkeys : r.map Prod.fst = ["leader", "tactical", "medic", "scout"] := by
    rcases hcase with ⟨_, hr⟩ | ⟨_, _, _, _, hk, _, _⟩
    · rw [hr]
      rfl
    · rw [hk]
      rfl
  obtain ⟨r2, hcon2, hcase2⟩ :=
    conduct_from_round ⟨["leader", "medic", "tactical", "scout"]⟩ hist u
    [("leader", leaderText u), ("medic", medicText u),
     ("tactical", tacticalText u), ("scout", scoutText)]
    ⟨["leader", "medic", "tactical", "scout"]⟩
    (leaderText u) (tacticalText u) (medicText u)
    (runRound_LMTS u hist) rfl rfl rfl
  have hkeys2 : r2.map Prod.fst = ["leader", "medic", "tactical", "scout"] := by
    rcases hcase2 with ⟨_, hr⟩ | ⟨_, _, _, _, hk, _, _⟩
    · rw [hr]
      rfl
    · rw [hk]
      rfl
  exact ⟨r, _, hcon, hkeys, rfl, r2, _, hcon2, hkeys2, rfl⟩

/-- C1: for every user input string (and any permutation of the four role
identifiers as stored speaking order), `conduct_debate` returns a mapping
whose keys are exactly the identifiers leader, tactical, medic and scout,
each mapped to a non-empty string. -/
theorem conduct_debate_four_roles_nonempty (u : String) (hist : List HistEntry)
    (st : SquadState) (h : st.standard_speaking_order.Perm fourRoles) :
    ∃ r st2, conduct_debate st hist u = some (r, st2) ∧
      (r.map Prod.fst).Perm fourRoles ∧ ∀ p ∈ r, p.2 ≠ "" := by
  obtain ⟨out, st2, hrun, hkeys, hmem⟩ := runRound_big u hist st.standard_speaking_order st []
    (fun r hr => h.mem_iff.mp hr) (h.nodup_iff.mpr (by decide)) (fun r hr => rfl)
  have hko : out.map Prod.fst = st.standard_speaking_order := by simpa using hkeys
  have hne : ∀ p ∈ out, p.2 ≠ "" := by
    intro p hp
    rcases hmem p hp with h0 | h0
    · exact absurd h0 (List.not_mem_nil p)
    · exact h0
  have hmemkeys : ∀ k, k ∈ fourRoles → containsKey out k = true := by
    intro k hk
    rw [containsKey_iff_mem_keys, hko]
    exact h.mem_iff.mpr hk
  obtain ⟨lv, hlv⟩ := dictGet?_of_containsKey out "leader" (hmemkeys _ (by decide))
  obtain ⟨tv, htv⟩ := dictGet?_of_containsKey out "tactical" (hmemkeys _ (by decide))
  obtain ⟨mv, hmv⟩ := dictGet?_of_containsKey out "medic" (hmemkeys _ (by decide))
  obtain ⟨r, hcon, hcase⟩ := conduct_from_round st hist u out st2 lv tv mv hrun hlv htv hmv
  refine ⟨r, st2, hcon, ?_, ?_⟩
  · rcases hcase with ⟨_, hr⟩ | ⟨_, _, _, _, hk, _, _⟩
    · rw [hr, hko]
      exact h
    · rw [hk, hko]
      exact h
  · rcases hcase with ⟨_, hr⟩ | ⟨_, _, _, _, _, hmm2, _⟩
    · rw [hr]
      exact hne
    · intro p hp
      rcases hmm2 p hp with h0 | ⟨q, s2, hq, he⟩
      · exact hne p h0
      · rw [he]
        exact append_ne_empty_left _ _ (hne (p.1, q) hq)

/-- Witness for C1 at the freshly constructed state and input "go". -/
theorem conduct_debate_four_roles_nonempty_witness :
    initialState.standard_speaking_order.Perm fourRoles ∧
    (∃ r st2, conduct_debate initialState [] "go" = some (r, st2) ∧
      (r.map Prod.fst).Perm fourRoles ∧ ∀ p ∈ r, p.2 ≠ "") :=
  ⟨by decide, conduct_debate_four_roles_nonempty "go" [] initialState (by decide)⟩

/-- C10: within a single call of `conduct_debate`, the sequence of
participants invoked — recorded as the key insertion order of the returned
mapping — is exactly the speaking order stored when the round loop began;
a reordering trigger fired mid-round never changes who speaks in that same
round (the loop iterates the captured list object; `_adjust_speaking_order`
rebinds the attribute to a fresh list). -/
theorem conduct_debate_keys_eq_initial_order (u : String) (hist : List HistEntry)
    (st : SquadState) (h : st.standard_speaking_order.Perm fourRoles) :
    ∃ r st2, conduct_debate st hist u = some (r, st2) ∧
      r.map Prod.fst = st.standard_speaking_order := by
  obtain ⟨out, st2, hrun, hkeys, hmem⟩ := runRound_big u hist st.standard_speaking_order st []
    (fun r hr => h.mem_iff.mp hr) (h.nodup_iff.mpr (by decide)) (fun r hr => rfl)
  have hko : out.map Prod.fst = st.standard_speaking_order := by simpa using hkeys
  have hmemkeys : ∀ k, k ∈ fourRoles → containsKey out k = true := by
    intro k hk
    rw [containsKey_iff_mem_keys, hko]
    exact h.mem_iff.mpr hk
  obtain ⟨lv, hlv⟩ := dictGet?_of_containsKey out "leader" (hmemkeys _ (by decide))
  obtain ⟨tv, htv⟩ := dictGet?_of_containsKey out "tactical" (hmemkeys _ (by decide))
  obtain ⟨mv, hmv⟩ := dictGet?_of_containsKey out "medic" (hmemkeys _ (by decide))
  obtain ⟨r, hcon, hcase⟩ := conduct_from_round st hist u out st2 lv tv mv hrun hlv htv hmv
  refine ⟨r, st2, hcon, ?_⟩
  rcases hcase with ⟨_, hr⟩ | ⟨_, _, _, _, hk, _, _⟩
  · rw [hr, hko]
  · rw [hk, hko]

/-- Witness for C10 with the alternative stored order and an input ("risk")
that fires the tactical reordering trigger mid-round. -/
theorem conduct_debate_keys_eq_initial_order_witness :
    (⟨["leader", "medic", "tactical", "scout"]⟩ : SquadState).standard_speaking_order.Perm
      fourRoles ∧
    (∃ r st2, conduct_debate ⟨["leader", "medic", "tactical", "scout"]⟩ [] "risk" =
        some (r, st2) ∧
      r.map Prod.fst =
        (⟨["leader", "medic", "tactical", "scout"]⟩ : SquadState).standard_speaking_order) :=
  ⟨by decide, conduct_debate_keys_eq_initial_order "risk" []
    ⟨["leader", "medic", "tactical", "scout"]⟩ (by decide)⟩

/-- C6: after the round loop, whenever the complex-situation predicate
(more than 15 whitespace tokens in the input, or a disagreement marker in
any produced response) holds, `conduct_debate` augments the stored texts:
the fixed follow-up clause is appended after the leader original text
exactly when the tactical response contains "challenge" (case-insensitive
via lower-casing), and a fixed follow-up clause is appended to the tactical
text exactly when the medic response contains "ethical". -/
theorem conduct_follow_up_spec (u : String) (hist : List HistEntry) (st : SquadState)
    (h : st.standard_speaking_order.Perm fourRoles) :
    ∃ r0 st2 lv tv mv,
      runRound u hist st.standard_speaking_order st [] = some (r0, st2) ∧
      dictGet? r0 "leader" = some lv ∧
      dictGet? r0 "tactical" = some tv ∧
      dictGet? r0 "medic" = some mv ∧
      (is_complex_situation u r0 = true →
        ∃ r, conduct_debate st hist u = some (r, st2) ∧
          dictGet? r "leader" = some (if pyIn "challenge" (pyLower tv) = true then
            lv ++ "\n\n**Follow-up:** " ++ leader_followup else lv) ∧
          dictGet? r "tactical" = some (if pyIn "ethical" (pyLower mv) = true then
            tv ++ "\n\n**Follow-up:** " ++ tactical_followup else tv)) := by
  obtain ⟨out, st2, hrun, hkeys, hmem⟩ := runRound_big u hist st.standard_speaking_order st []
    (fun r hr => h.mem_iff.mp hr) (h.nodup_iff.mpr (by decide)) (fun r hr => rfl)
  have hko : out.map Prod.fst = st.standard_speaking_order := by simpa using hkeys
  have hmemkeys : ∀ k, k ∈ fourRoles → containsKey out k = true := by
    intro k hk
    rw [containsKey_iff_mem_keys, hko]
    exact h.mem_iff.mpr hk
  obtain ⟨lv, hlv⟩ := dictGet?_of_containsKey out "leader" (hmemkeys _ (by decide))
  obtain ⟨tv, htv⟩ := dictGet?_of_containsKey out "tactical" (hmemkeys _ (by decide))
  obtain ⟨mv, hmv⟩ := dictGet?_of_containsKey out "medic" (hmemkeys _ (by decide))
  obtain ⟨r, hcon, hcase⟩ := conduct_from_round st hist u out st2 lv tv mv hrun hlv htv hmv
  refine ⟨out, st2, lv, tv, mv, hrun, hlv, htv, hmv, ?_⟩
  intro hcx
  rcases hcase with ⟨hf, _⟩ | ⟨_, h1, h2, _, _, _, _⟩
  · rw [hcx] at hf
    exact Bool.noConfusion hf
  · exact ⟨r, hcon, h1, h2⟩

/-- Witness for C6 at a 16-token input (complex by word count) from the
freshly constructed state. -/
theorem conduct_follow_up_spec_witness :
    initialState.standard_speaking_order.Perm fourRoles ∧
    (∃ r0 st2 lv tv mv,
      runRound "a b c d e f g h i j k l m n o p" [] initialState.standard_speaking_order
        initialState [] = some (r0, st2) ∧
      dictGet? r0 "leader" = some lv ∧
      dictGet? r0 "tactical" = some tv ∧
      dictGet? r0 "medic" = some mv ∧
      (is_complex_situation "a b c d e f g h i j k l m n o p" r0 = true →
        ∃ r, conduct_debate initialState [] "a b c d e f g h i j k l m n o p" =
            some (r, st2) ∧
          dictGet? r "leader" = some (if pyIn "challenge" (pyLower tv) = true then
            lv ++ "\n\n**Follow-up:** " ++ leader_followup else lv) ∧
          dictGet? r "tactical" = some (if pyIn "ethical" (pyLower mv) = true then
            tv ++ "\n\n**Follow-up:** " ++ tactical_followup else tv))) :=
  ⟨by decide, conduct_follow_up_spec "a b c d e f g h i j k l m n o p" [] initialState
    (by decide)⟩

/-- C8: `conduct_debate` is total and deterministic: from any reachable
orchestrator state and any stored history, every input string (the empty
string included) yields `some` result (no exception), and the returned
response mapping has, for every role, exactly the same lookups as the call
from the freshly constructed state with empty history — so the mapping is
determined by the input string alone (a fortiori by input and history). -/
theorem conduct_debate_total_input_determined (u : String) (hist : List HistEntry)
    (st : SquadState) (h : st.standard_speaking_order ∈ reachableOrders) :
    ∃ r st2 r0 st0, conduct_debate st hist u = some (r, st2) ∧
      conduct_debate initialState [] u = some (r0, st0) ∧
      (∀ role, dictGet? r role = dictGet? r0 role) := by
  obtain ⟨ord⟩ := st
  obtain ⟨rA, hconA, hcaseA⟩ := conduct_from_round initialState [] u
    [("leader", leaderText u), ("tactical", tacticalText u),
     ("medic", medicText u), ("scout", scoutText)]
    ⟨["leader", "medic", "tactical", "scout"]⟩
    (leaderText u) (tacticalText u) (medicText u)
    (runRound_LTMS u []) rfl rfl rfl
  have hmemcase : ord = ["leader", "tactical", "medic", "scout"] ∨
      ord = ["leader", "medic", "tactical", "scout"] := by
    simpa [reachableOrders] using h
  rcases hmemcase with hord | hord
  · subst hord
    obtain ⟨rB, hconB, hcaseB⟩ := conduct_from_round
      ⟨["leader", "tactical", "medic", "scout"]⟩ hist u
      [("leader", leaderText u), ("tactical", tacticalText u),
       ("medic", medicText u), ("scout", scoutText)]
      ⟨["leader", "medic", "tactical", "scout"]⟩
      (leaderText u) (tacticalText u) (medicText u)
      (runRound_LTMS u hist) rfl rfl rfl
    refine ⟨rB, _, rA, _, hconB, hconA, ?_⟩
    rcases hcaseA with ⟨hfA, hrA⟩ | ⟨htA, h1A, h2A, h3A, _, _, h6A⟩ <;>
      rcases hcaseB with ⟨hfB, hrB⟩ | ⟨htB, h1B, h2B, h3B, _, _, h6B⟩
    · intro role
      rw [hrA, hrB]
    · rw [hfA] at htB
      exact Bool.noConfusion htB
    · rw [hfB] at htA
      exact Bool.noConfusion htA
    · intro role
      by_cases hL : role = "leader"
      · subst hL
        rw [h1A, h1B]
      · by_cases hT : role = "tactical"
        · subst hT
          rw [h2A, h2B]
        · rw [h6A role hL hT, h6B role hL hT]
  · subst hord
    obtain ⟨rB, hconB, hcaseB⟩ := conduct_from_round
      ⟨["leader", "medic", "tactical", "scout"]⟩ hist u
      [("leader", leaderText u), ("medic", medicText u),
       ("tactical", tacticalText u), ("scout", scoutText)]
      ⟨["leader", "medic", "tactical", "scout"]⟩
      (leaderText u) (tacticalText u) (medicText u)
      (runRound_LMTS u hist) rfl rfl rfl
    have hswap := is_complex_swap u (leaderText u) (tacticalText u) (medicText u) scoutText
    have hget := fun role => dictGet?_four_swap (leaderText u) (tacticalText u)
      (medicText u) scoutText role
    refine ⟨rB, _, rA, _, hconB, hconA, ?_⟩
    rcases hcaseA with ⟨hfA, hrA⟩ | ⟨htA, h1A, h2A, h3A, _, _, h6A⟩ <;>
      rcases hcaseB with ⟨hfB, hrB⟩ | ⟨htB, h1B, h2B, h3B, _, _, h6B⟩
    · intro role
      rw [hrA, hrB]
      exact hget role
    · rw [hswap, hfA] at htB
      exact Bool.noConfusion htB
    · rw [← hswap, hfB] at htA
      exact Bool.noConfusion htA
    · intro role
      by_cases hL : role = "leader"
      · subst hL
        rw [h1A, h1B]
      · by_cases hT : role = "tactical"
        · subst hT
          rw [h2A, h2B]
        · rw [h6A role hL hT, h6B role hL hT]
          exact hget role

/-- Witness for C8: the reachable modified order with a non-trivial stored
history against the fresh instance on the empty input. -/
theorem conduct_debate_total_input_determined_witness :
    (⟨["leader", "medic", "tactical", "scout"]⟩ : SquadState).standard_speaking_order ∈
      reachableOrders ∧
    (∃ r st2 r0 st0,
      conduct_debate ⟨["leader", "medic", "tactical", "scout"]⟩
        [⟨"t0", "User", "hi", "user_input"⟩] "" = some (r, st2) ∧
      conduct_debate initialState [] "" = some (r0, st0) ∧
      (∀ role, dictGet? r role = dictGet? r0 role)) :=
  ⟨by decide, conduct_debate_total_input_determined "" [⟨"t0", "User", "hi", "user_input"⟩]
    ⟨["leader", "medic", "tactical", "scout"]⟩ (by decide)⟩
